import Mathlib

/-
Verification of the microtable secondary-indexed record store
(src/src/lib.rs).  The Rust `Table<T>` holds `data : HashMap<Key, Record>`
and `index : HashMap<Category, HashSet<Key>>`.  We embed both hash
containers as association lists / lists-as-sets over types with decidable
equality; every public operation of the Rust impl block is translated
one-to-one.  Rust functions with `&mut self` that can both mutate and
return a `Result` are embedded as functions returning the new table state
paired with the `Result`; calls to `.unwrap()` that can fail are embedded
with an `Option` layer where `none` models a panic.
-/

namespace Microtable

/-- The `QueryError` enum of the source. -/
inductive QueryError where
  | KeyCollision
  | KeyNotFound
deriving DecidableEq, Repr

/- Association-list embedding of `HashMap`.  Lookup returns the first
matching entry; insertion replaces an existing binding, otherwise appends;
erasure drops the binding. -/

def mapLookup {α β : Type} [DecidableEq α] : List (α × β) → α → Option β
  | [], _ => none
  | p :: rest, k => if p.1 = k then some p.2 else mapLookup rest k

def mapErase {α β : Type} [DecidableEq α] (m : List (α × β)) (k : α) : List (α × β) :=
  m.filter (fun p => decide (p.1 ≠ k))

def mapInsert {α β : Type} [DecidableEq α] (m : List (α × β)) (k : α) (v : β) : List (α × β) :=
  if (mapLookup m k).isSome then
    m.map (fun p => if p.1 = k then (p.1, v) else p)
  else
    m ++ [(k, v)]

/- Lists used with set semantics, embedding `HashSet`. -/

def setInsert {α : Type} [DecidableEq α] (s : List α) (k : α) : List α :=
  if k ∈ s then s else s ++ [k]

def setRemove {α : Type} [DecidableEq α] (s : List α) (k : α) : List α :=
  s.filter (fun x => decide (x ≠ k))

/- Bucket operations on the category index. -/

def bucketModify {C K : Type} [DecidableEq C] (ix : List (C × List K)) (c : C)
    (g : List K → List K) : List (C × List K) :=
  ix.map (fun p => if p.1 = c then (p.1, g p.2) else p)

/-- `self.index.entry(cat).or_insert_with(HashSet::new).insert(key)`. -/
def bucketInsert {C K : Type} [DecidableEq C] [DecidableEq K]
    (ix : List (C × List K)) (c : C) (k : K) : List (C × List K) :=
  if (mapLookup ix c).isSome then
    bucketModify ix c (fun s => setInsert s k)
  else
    ix ++ [(c, [k])]

/-- `self.index.entry(cat).and_modify(|e| { e.remove(&key); })`. -/
def bucketRemoveKey {C K : Type} [DecidableEq C] [DecidableEq K]
    (ix : List (C × List K)) (c : C) (k : K) : List (C × List K) :=
  bucketModify ix c (fun s => setRemove s k)

/-- `clear_empty_categories`: `self.index.retain(|_, keys| keys.len() > 0)`. -/
def clearEmptyIdx {C K : Type} (ix : List (C × List K)) : List (C × List K) :=
  ix.filter (fun p => decide (0 < p.2.length))

/-- The `TableRecord` trait: `key()` and `categories()` of a record type `V`. -/
structure RecordOps (K C V : Type) where
  key : V → K
  categories : V → List C

/-- The `Table` struct: primary store `data` and category `index`. -/
structure Table (K C V : Type) where
  data : List (K × V)
  index : List (C × List K)
deriving DecidableEq, Repr

variable {K C V : Type}

/-- `Table::new()`. -/
def Table.new : Table K C V := Table.mk [] []

/-- `len`. -/
def Table.len (t : Table K C V) : Nat := t.data.length

/-- `contains_key`. -/
def Table.contains_key [DecidableEq K] (t : Table K C V) (k : K) : Bool :=
  (mapLookup t.data k).isSome

/-- `contains_val`. -/
def Table.contains_val [DecidableEq K] (R : RecordOps K C V) (t : Table K C V) (v : V) : Bool :=
  (mapLookup t.data (R.key v)).isSome

/-- `contains_cat`. -/
def Table.contains_cat [DecidableEq C] (t : Table K C V) (c : C) : Bool :=
  (mapLookup t.index c).isSome

/-- `get`. -/
def Table.get [DecidableEq K] (t : Table K C V) (k : K) : Option V :=
  mapLookup t.data k

/-- `insert`: fails with KeyCollision if the key is present, else adds the
key to the bucket of every category of the record and stores the record. -/
def Table.insert [DecidableEq K] [DecidableEq C] (R : RecordOps K C V)
    (t : Table K C V) (v : V) : Table K C V × Except QueryError Unit :=
  let key := R.key v
  if (mapLookup t.data key).isSome then
    (t, Except.error QueryError.KeyCollision)
  else
    let ix := (R.categories v).foldl (fun ix c => bucketInsert ix c key) t.index
    (Table.mk (mapInsert t.data key v) ix, Except.ok ())

/-- `remove`: drop the record and prune its key from every bucket of its
pre-removal categories, clearing empty buckets after each step. -/
def Table.remove [DecidableEq K] [DecidableEq C] (R : RecordOps K C V)
    (t : Table K C V) (k : K) : Table K C V × Option V :=
  match mapLookup t.data k with
  | none => (t, none)
  | some v =>
    let ix := (R.categories v).foldl (fun ix c => clearEmptyIdx (bucketRemoveKey ix c k)) t.index
    (Table.mk (mapErase t.data k) ix, some v)

/-- The body of `update_with` once the record was found: `v` is the mutated
clone, `old_cats` the categories recorded before the callback ran.  In the
no-rename branch the source updates only the index; the mutated clone is
dropped without being written back into `data`. -/
def updateWithFound [DecidableEq K] [DecidableEq C] (R : RecordOps K C V)
    (t : Table K C V) (old_key : K) (v : V) (old_cats : List C) :
    Table K C V × Except QueryError Unit :=
  let new_key := R.key v
  if new_key = old_key then
    let new_cats := R.categories v
    let ix1 := (old_cats.filter (fun c => decide (c ∉ new_cats))).foldl
      (fun ix c => bucketRemoveKey ix c old_key) t.index
    let ix2 := (new_cats.filter (fun c => decide (c ∉ old_cats))).foldl
      (fun ix c => bucketInsert ix c old_key) ix1
    (Table.mk t.data (clearEmptyIdx ix2), Except.ok ())
  else
    match Table.insert R t v with
    | (t1, Except.ok _) => ((Table.remove R t1 old_key).1, Except.ok ())
    | (t1, Except.error e) => (t1, Except.error e)

/-- `update_with`. -/
def Table.update_with [DecidableEq K] [DecidableEq C] (R : RecordOps K C V)
    (t : Table K C V) (old_key : K) (f : V → V) : Table K C V × Except QueryError Unit :=
  match mapLookup t.data old_key with
  | none => (t, Except.error QueryError.KeyNotFound)
  | some v0 => updateWithFound R t old_key (f v0) (R.categories v0)

/-- `upsert`: the two internal `.unwrap()` calls are embedded by returning
`none` (a panic) when the unwrapped call errs. -/
def Table.upsert [DecidableEq K] [DecidableEq C] (R : RecordOps K C V)
    (t : Table K C V) (key : K) (v : V) : Option (Table K C V × Except QueryError Unit) :=
  let new_key := R.key v
  if decide (new_key ≠ key) && (mapLookup t.data new_key).isSome then
    some (t, Except.error QueryError.KeyCollision)
  else if (mapLookup t.data key).isSome then
    match Table.update_with R t key (fun _ => v) with
    | (t1, Except.ok _) => some (t1, Except.ok ())
    | (_, Except.error _) => none
  else
    match Table.insert R t v with
    | (t1, Except.ok _) => some (t1, Except.ok ())
    | (_, Except.error _) => none

/-- The simulation loop of `update_by_cat`: clone each snapshotted record,
run the callback, and check the resulting key against the current table.
`self.data.get(&old_key).unwrap()` panics (`none`) on a stale key. -/
def simulateUpdates [DecidableEq K] (R : RecordOps K C V) (t : Table K C V)
    (f : V → V) : List K → Option (Except QueryError (List (K × V)))
  | [] => some (Except.ok [])
  | old_key :: rest =>
    match mapLookup t.data old_key with
    | none => none
    | some item0 =>
      let item := f item0
      let new_key := R.key item
      if decide (new_key ≠ old_key) && (mapLookup t.data new_key).isSome then
        some (Except.error QueryError.KeyCollision)
      else
        match simulateUpdates R t f rest with
        | none => none
        | some (Except.error e) => some (Except.error e)
        | some (Except.ok us) => some (Except.ok ((old_key, item) :: us))

/-- The commit loop of `update_by_cat`: `self.upsert(old_key, new_val).unwrap()`;
an `Err` from `upsert` (or a panic inside it) is a panic (`none`). -/
def commitUpdates [DecidableEq K] [DecidableEq C] (R : RecordOps K C V) :
    Table K C V → List (K × V) → Option (Table K C V)
  | t, [] => some t
  | t, (old_key, v) :: rest =>
    match Table.upsert R t old_key v with
    | some (t1, Except.ok _) => commitUpdates R t1 rest
    | some (_, Except.error _) => none
    | none => none

/-- `update_by_cat`: snapshot the bucket, simulate every update against the
pre-batch state, then commit each via `upsert`.  Returns the snapshot length. -/
def Table.update_by_cat [DecidableEq K] [DecidableEq C] (R : RecordOps K C V)
    (t : Table K C V) (cat : C) (f : V → V) :
    Option (Table K C V × Except QueryError Nat) :=
  match mapLookup t.index cat with
  | none => some (t, Except.ok 0)
  | some keys =>
    match simulateUpdates R t f keys with
    | none => none
    | some (Except.error e) => some (t, Except.error e)
    | some (Except.ok updates) =>
      match commitUpdates R t updates with
      | none => none
      | some t1 => some (t1, Except.ok keys.length)

/-- The fold inside `remove_cat`: `keys.iter().filter_map(|k| self.data.remove(k))`. -/
def removeCatLoop [DecidableEq K] (data : List (K × V)) :
    List K → List (K × V) × List V
  | [] => (data, [])
  | k :: rest =>
    match mapLookup data k with
    | none => removeCatLoop data rest
    | some v =>
      let r := removeCatLoop (mapErase data k) rest
      (r.1, v :: r.2)

/-- `remove_cat`: drop the bucket and remove every key that was in it from
`data`; sibling buckets are not touched. -/
def Table.remove_cat [DecidableEq K] [DecidableEq C]
    (t : Table K C V) (cat : C) : Table K C V × List V :=
  match mapLookup t.index cat with
  | none => (t, [])
  | some keys =>
    let r := removeCatLoop t.data keys
    (Table.mk r.1 (mapErase t.index cat), r.2)

/-- `find`: the records of the bucket of `cat`, empty when the category is
unknown. -/
def Table.find [DecidableEq K] [DecidableEq C] (t : Table K C V) (cat : C) : List V :=
  match mapLookup t.index cat with
  | none => []
  | some ks => ks.filterMap (fun k => mapLookup t.data k)

/-- The `Deserialize` impl: start from `Table::new()` and `insert` each
record in sequence, with `.unwrap()` (panic, `none`) on a collision. -/
def reconstructAux [DecidableEq K] [DecidableEq C] (R : RecordOps K C V) :
    Table K C V → List V → Option (Table K C V)
  | t, [] => some t
  | t, v :: rest =>
    match Table.insert R t v with
    | (t1, Except.ok _) => reconstructAux R t1 rest
    | (_, Except.error _) => none

/-- Reconstruction of a table from a serialized sequence of records. -/
def reconstruct [DecidableEq K] [DecidableEq C] (R : RecordOps K C V)
    (vs : List V) : Option (Table K C V) :=
  reconstructAux R Table.new vs

/-- Spec invariant 2 as a boolean check: every key of every bucket resolves
to a live record whose categories contain the bucket category. -/
def inv2b [DecidableEq K] [DecidableEq C] (R : RecordOps K C V) (t : Table K C V) : Bool :=
  t.index.all (fun p => p.2.all (fun k =>
    match mapLookup t.data k with
    | some v => decide (p.1 ∈ R.categories v)
    | none => false))

/-- Spec invariant 4 as a boolean check on an index: no empty buckets. -/
def inv4idx (ix : List (C × List K)) : Bool :=
  ix.all (fun p => decide (0 < p.2.length))

/-- Spec invariant 4 for a table. -/
def inv4b (t : Table K C V) : Bool := inv4idx t.index

/-- Spec invariant 2 as a proposition. -/
def inv2p [DecidableEq K] [DecidableEq C] (R : RecordOps K C V) (t : Table K C V) : Prop :=
  ∀ p ∈ t.index, ∀ k ∈ p.2, ∃ v, mapLookup t.data k = some v ∧ p.1 ∈ R.categories v

/- Concrete instantiation used by closed witnesses and counterexamples: a
record is a pair of its key and its category list. -/

/-- Record operations for the concrete record type `Nat × List Nat`. -/
def Rnc : RecordOps Nat Nat (Nat × List Nat) :=
  RecordOps.mk Prod.fst Prod.snd

/-- A one-record table: key 1, categories [10]. -/
def tOne : Table Nat Nat (Nat × List Nat) :=
  (Table.insert Rnc Table.new (1, [10])).1

/-- A one-record table whose record has two categories. -/
def tTwoCats : Table Nat Nat (Nat × List Nat) :=
  (Table.insert Rnc Table.new (1, [10, 20])).1

/-- A two-record table: keys 1 and 2. -/
def tTwo : Table Nat Nat (Nat × List Nat) :=
  (Table.insert Rnc (Table.insert Rnc Table.new (1, [10])).1 (2, [20])).1

/- Basic lemmas about the association-list maps and list sets. -/

theorem mapLookup_append_of_none {α β : Type} [DecidableEq α] {m : List (α × β)}
    (m' : List (α × β)) {k : α} (h : mapLookup m k = none) :
    mapLookup (m ++ m') k = mapLookup m' k := by
  induction m with
  | nil => rfl
  | cons p rest ih =>
    by_cases hp : p.1 = k
    · simp [mapLookup, hp] at h
    · simp only [mapLookup, hp, if_false] at h
      show mapLookup (p :: (rest ++ m')) k = mapLookup m' k
      simp only [mapLookup, hp, if_false]
      exact ih h

theorem mapLookup_append_of_some {α β : Type} [DecidableEq α] {m : List (α × β)}
    (m' : List (α × β)) {k : α} {v : β} (h : mapLookup m k = some v) :
    mapLookup (m ++ m') k = some v := by
  induction m with
  | nil => simp [mapLookup] at h
  | cons p rest ih =>
    by_cases hp : p.1 = k
    · simp only [mapLookup, hp, if_true] at h
      show mapLookup (p :: (rest ++ m')) k = some v
      simp [mapLookup, hp, h]
    · simp only [mapLookup, hp, if_false] at h
      show mapLookup (p :: (rest ++ m')) k = some v
      simp only [mapLookup, hp, if_false]
      exact ih h

theorem mapLookup_single_self {α β : Type} [DecidableEq α] (k : α) (v : β) :
    mapLookup [(k, v)] k = some v := by
  simp [mapLookup]

theorem mapLookup_erase {α β : Type} [DecidableEq α] (m : List (α × β)) (k k' : α) :
    mapLookup (mapErase m k) k' = if k' = k then none else mapLookup m k' := by
  induction m with
  | nil => simp [mapErase, mapLookup]
  | cons p rest ih =>
    simp only [mapErase, List.filter_cons] at ih ⊢
    by_cases hp : p.1 = k
    · rw [if_neg (by simp [hp])]
      rw [ih]
      by_cases hk : k' = k
      · simp [hk]
      · have hpk : ¬ p.1 = k' := by rw [hp]; exact fun h => hk h.symm
        simp [mapLookup, hk, hpk]
    · rw [if_pos (by simp [hp])]
      by_cases hpk : p.1 = k'
      · by_cases hk : k' = k
        · exact absurd (hpk.trans hk) hp
        · simp [mapLookup, hpk, hk]
      · simp only [mapLookup, hpk, if_false]
        exact ih

theorem mapLookup_erase_self {α β : Type} [DecidableEq α] (m : List (α × β)) (k : α) :
    mapLookup (mapErase m k) k = none := by
  simp [mapLookup_erase]

theorem mapLookup_some_mem {α β : Type} [DecidableEq α] {m : List (α × β)}
    {k : α} {v : β} (h : mapLookup m k = some v) : (k, v) ∈ m := by
  induction m with
  | nil => simp [mapLookup] at h
  | cons p rest ih =>
    by_cases hp : p.1 = k
    · simp only [mapLookup, hp, if_true, Option.some.injEq] at h
      obtain ⟨a, b⟩ := p
      simp only at hp h
      rw [hp, h] at *
      exact List.mem_cons_self _ _
    · simp only [mapLookup, hp, if_false] at h
      exact List.mem_cons_of_mem _ (ih h)

theorem mapInsert_of_none {α β : Type} [DecidableEq α] {m : List (α × β)}
    {k : α} (v : β) (h : mapLookup m k = none) :
    mapInsert m k v = m ++ [(k, v)] := by
  simp [mapInsert, h]

theorem mem_setInsert_self {α : Type} [DecidableEq α] (s : List α) (k : α) :
    k ∈ setInsert s k := by
  unfold setInsert
  split
  · assumption
  · simp

theorem mem_setInsert_of_mem {α : Type} [DecidableEq α] {s : List α} {k' : α}
    (k : α) (h : k' ∈ s) : k' ∈ setInsert s k := by
  unfold setInsert
  split
  · exact h
  · simp [h]

theorem mem_of_mem_setInsert {α : Type} [DecidableEq α] {s : List α} {k k' : α}
    (h : k' ∈ setInsert s k) : k' ∈ s ∨ k' = k := by
  unfold setInsert at h
  split at h
  · exact Or.inl h
  · simpa using h

theorem not_mem_setRemove_self {α : Type} [DecidableEq α] (s : List α) (k : α) :
    k ∉ setRemove s k := by
  simp [setRemove]

theorem mem_of_mem_setRemove {α : Type} [DecidableEq α] {s : List α} {k k' : α}
    (h : k' ∈ setRemove s k) : k' ∈ s := by
  simp only [setRemove, List.mem_filter] at h
  exact h.1

theorem mapLookup_bucketModify {C K : Type} [DecidableEq C]
    (ix : List (C × List K)) (c c' : C) (g : List K → List K) :
    mapLookup (bucketModify ix c g) c' =
      if c' = c then Option.map g (mapLookup ix c') else mapLookup ix c' := by
  induction ix with
  | nil => simp [bucketModify, mapLookup]
  | cons p rest ih =>
    simp only [bucketModify, List.map_cons] at ih ⊢
    by_cases hp : p.1 = c
    · by_cases hpk : p.1 = c'
      · have hc : c' = c := hpk.symm.trans hp
        simp [mapLookup, hpk, hc]
      · have hc : ¬ c' = c := fun h => hpk (hp.trans h.symm)
        have hcc : ¬ c = c' := fun h => hc h.symm
        simp [mapLookup, hp, hpk, hc, hcc, ih]
    · simp only [hp, if_false]
      by_cases hpk : p.1 = c'
      · by_cases hc : c' = c
        · exact absurd (hpk.trans hc) hp
        · simp [mapLookup, hpk, hc]
      · simp only [mapLookup, hpk, if_false]
        exact ih

theorem bucketInsert_lookup_self {C K : Type} [DecidableEq C] [DecidableEq K]
    (ix : List (C × List K)) (c : C) (k : K) :
    ∃ ks, mapLookup (bucketInsert ix c k) c = some ks ∧ k ∈ ks := by
  unfold bucketInsert
  by_cases h : (mapLookup ix c).isSome
  · rw [if_pos h]
    obtain ⟨s, hs⟩ := Option.isSome_iff_exists.mp h
    refine ⟨setInsert s k, ?_, mem_setInsert_self s k⟩
    rw [mapLookup_bucketModify, if_pos rfl, hs]
    rfl
  · rw [if_neg h]
    have hn : mapLookup ix c = none := Option.not_isSome_iff_eq_none.mp h
    refine ⟨[k], ?_, List.mem_singleton_self k⟩
    rw [mapLookup_append_of_none _ hn, mapLookup_single_self]

theorem bucketInsert_preserves {C K : Type} [DecidableEq C] [DecidableEq K]
    {ix : List (C × List K)} {c' : C} {k : K} (c : C)
    (h : ∃ ks, mapLookup ix c' = some ks ∧ k ∈ ks) :
    ∃ ks, mapLookup (bucketInsert ix c k) c' = some ks ∧ k ∈ ks := by
  obtain ⟨ks, hks, hk⟩ := h
  unfold bucketInsert
  by_cases hs : (mapLookup ix c).isSome
  · rw [if_pos hs, mapLookup_bucketModify]
    by_cases hc : c' = c
    · rw [if_pos hc, hks]
      exact ⟨setInsert ks k, rfl, mem_setInsert_of_mem k hk⟩
    · rw [if_neg hc, hks]
      exact ⟨ks, rfl, hk⟩
  · rw [if_neg hs]
    exact ⟨ks, mapLookup_append_of_some _ hks, hk⟩

theorem foldlBucketInsert_mem {C K : Type} [DecidableEq C] [DecidableEq K]
    (cats : List C) (ix : List (C × List K)) (k : K) (c' : C)
    (h : (∃ ks, mapLookup ix c' = some ks ∧ k ∈ ks) ∨ c' ∈ cats) :
    ∃ ks, mapLookup (cats.foldl (fun ix c => bucketInsert ix c k) ix) c' = some ks ∧ k ∈ ks := by
  induction cats generalizing ix with
  | nil => simpa using h
  | cons c rest ih =>
    simp only [List.foldl_cons]
    apply ih
    rcases h with hest | hmem
    · exact Or.inl (bucketInsert_preserves c hest)
    · rcases List.mem_cons.mp hmem with rfl | hr
      · exact Or.inl (bucketInsert_lookup_self ix c' k)
      · exact Or.inr hr

theorem bucketInsert_entries {C K : Type} [DecidableEq C] [DecidableEq K]
    {ix : List (C × List K)} {c : C} {k : K} {p : C × List K}
    (hp : p ∈ bucketInsert ix c k) (k' : K) (hk' : k' ∈ p.2) :
    (∃ q ∈ ix, q.1 = p.1 ∧ k' ∈ q.2) ∨ (k' = k ∧ p.1 = c) := by
  unfold bucketInsert at hp
  by_cases hs : (mapLookup ix c).isSome
  · rw [if_pos hs] at hp
    unfold bucketModify at hp
    obtain ⟨q, hq, hpq⟩ := List.mem_map.mp hp
    by_cases hqc : q.1 = c
    · rw [if_pos hqc] at hpq
      subst hpq
      rcases mem_of_mem_setInsert hk' with hin | heq
      · exact Or.inl ⟨q, hq, rfl, hin⟩
      · exact Or.inr ⟨heq, hqc⟩
    · rw [if_neg hqc] at hpq
      subst hpq
      exact Or.inl ⟨q, hq, rfl, hk'⟩
  · rw [if_neg hs] at hp
    rcases List.mem_append.mp hp with hin | hone
    · exact Or.inl ⟨p, hin, rfl, hk'⟩
    · have hpe : p = (c, [k]) := by simpa using hone
      subst hpe
      simp only [List.mem_singleton] at hk'
      exact Or.inr ⟨hk', rfl⟩

theorem foldlBucketInsert_entries {C K : Type} [DecidableEq C] [DecidableEq K]
    (cats : List C) (ix : List (C × List K)) (k : K) :
    ∀ p ∈ cats.foldl (fun ix c => bucketInsert ix c k) ix, ∀ k' ∈ p.2,
      (∃ q ∈ ix, q.1 = p.1 ∧ k' ∈ q.2) ∨ (k' = k ∧ p.1 ∈ cats) := by
  induction cats generalizing ix with
  | nil =>
    intro p hp k' hk'
    exact Or.inl ⟨p, hp, rfl, hk'⟩
  | cons c rest ih =>
    intro p hp k' hk'
    simp only [List.foldl_cons] at hp
    rcases ih (bucketInsert ix c k) p hp k' hk' with ⟨q, hq, hq1, hq2⟩ | ⟨hkk, hmem⟩
    · rcases bucketInsert_entries hq k' hq2 with ⟨q', hq', hq1', hq2'⟩ | ⟨hkk, hqc⟩
      · exact Or.inl ⟨q', hq', hq1'.trans hq1, hq2'⟩
      · have hpc : p.1 = c := hq1.symm.trans hqc
        exact Or.inr ⟨hkk, hpc ▸ List.mem_cons_self c rest⟩
    · exact Or.inr ⟨hkk, List.mem_cons_of_mem c hmem⟩

theorem clearBucketRemove_entries {C K : Type} [DecidableEq C] [DecidableEq K]
    {ix : List (C × List K)} {c : C} {k : K} {p : C × List K}
    (hp : p ∈ clearEmptyIdx (bucketRemoveKey ix c k)) :
    ∃ q ∈ ix, p.1 = q.1 ∧ (∀ k' ∈ p.2, k' ∈ q.2) ∧ (p.1 = c → k ∉ p.2) := by
  have hp2 : p ∈ bucketRemoveKey ix c k := List.mem_of_mem_filter hp
  unfold bucketRemoveKey bucketModify at hp2
  obtain ⟨q, hq, hpq⟩ := List.mem_map.mp hp2
  by_cases hqc : q.1 = c
  · rw [if_pos hqc] at hpq
    subst hpq
    exact ⟨q, hq, rfl, fun k' h => mem_of_mem_setRemove h,
      fun _ => not_mem_setRemove_self q.2 k⟩
  · rw [if_neg hqc] at hpq
    subst hpq
    exact ⟨q, hq, rfl, fun k' h => h, fun hc => absurd hc hqc⟩

theorem foldlClearRemove_entries {C K : Type} [DecidableEq C] [DecidableEq K]
    (cats : List C) (ix : List (C × List K)) (k : K) :
    ∀ p ∈ cats.foldl (fun ix c => clearEmptyIdx (bucketRemoveKey ix c k)) ix,
      ∃ q ∈ ix, p.1 = q.1 ∧ (∀ k' ∈ p.2, k' ∈ q.2) ∧ (p.1 ∈ cats → k ∉ p.2) := by
  induction cats generalizing ix with
  | nil =>
    intro p hp
    exact ⟨p, hp, rfl, fun _ h => h, by simp⟩
  | cons c rest ih =>
    intro p hp
    simp only [List.foldl_cons] at hp
    obtain ⟨q, hq, h1, h2, h3⟩ := ih _ p hp
    obtain ⟨q', hq', h1', h2', h3'⟩ := clearBucketRemove_entries hq
    refine ⟨q', hq', h1.trans h1', fun k' h => h2' k' (h2 k' h), ?_⟩
    intro hmem
    rcases List.mem_cons.mp hmem with hc | hr
    · have hknq : k ∉ q.2 := h3' (h1.symm.trans hc)
      exact fun hk => hknq (h2 k hk)
    · exact h3 hr

theorem inv4idx_clearEmptyIdx {C K : Type} (ix : List (C × List K)) :
    inv4idx (clearEmptyIdx ix) = true := by
  unfold inv4idx clearEmptyIdx
  rw [List.all_eq_true]
  intro p hp
  exact (List.mem_filter.mp hp).2

theorem inv4idx_foldlClearRemove {C K : Type} [DecidableEq C] [DecidableEq K]
    (cats : List C) (ix : List (C × List K)) (k : K) (h : inv4idx ix = true) :
    inv4idx (cats.foldl (fun ix c => clearEmptyIdx (bucketRemoveKey ix c k)) ix) = true := by
  induction cats generalizing ix with
  | nil => exact h
  | cons c rest ih => exact ih _ (inv4idx_clearEmptyIdx _)

/- Reduction lemmas: each public operation evaluated on the branch chosen
by its guards. -/

theorem insert_of_present {K C V : Type} [DecidableEq K] [DecidableEq C]
    (R : RecordOps K C V) (t : Table K C V) (v : V)
    (h : (mapLookup t.data (R.key v)).isSome = true) :
    Table.insert R t v = (t, Except.error QueryError.KeyCollision) := by
  simp only [Table.insert]
  rw [if_pos h]

theorem insert_of_absent {K C V : Type} [DecidableEq K] [DecidableEq C]
    (R : RecordOps K C V) (t : Table K C V) (v : V)
    (h : mapLookup t.data (R.key v) = none) :
    Table.insert R t v =
      (Table.mk (t.data ++ [(R.key v, v)])
        ((R.categories v).foldl (fun ix c => bucketInsert ix c (R.key v)) t.index),
       Except.ok ()) := by
  simp only [Table.insert]
  rw [if_neg (by simp [h]), mapInsert_of_none v h]

theorem remove_of_absent {K C V : Type} [DecidableEq K] [DecidableEq C]
    (R : RecordOps K C V) (t : Table K C V) (k : K)
    (h : mapLookup t.data k = none) :
    Table.remove R t k = (t, none) := by
  simp only [Table.remove]
  rw [h]

theorem remove_of_present {K C V : Type} [DecidableEq K] [DecidableEq C]
    (R : RecordOps K C V) (t : Table K C V) (k : K) (r : V)
    (h : mapLookup t.data k = some r) :
    Table.remove R t k =
      (Table.mk (mapErase t.data k)
        ((R.categories r).foldl (fun ix c => clearEmptyIdx (bucketRemoveKey ix c k)) t.index),
       some r) := by
  simp only [Table.remove]
  rw [h]

theorem update_with_of_absent {K C V : Type} [DecidableEq K] [DecidableEq C]
    (R : RecordOps K C V) (t : Table K C V) (old_key : K) (f : V → V)
    (h : mapLookup t.data old_key = none) :
    Table.update_with R t old_key f = (t, Except.error QueryError.KeyNotFound) := by
  simp only [Table.update_with]
  rw [h]

theorem update_with_of_present {K C V : Type} [DecidableEq K] [DecidableEq C]
    (R : RecordOps K C V) (t : Table K C V) (old_key : K) (f : V → V) (v0 : V)
    (h : mapLookup t.data old_key = some v0) :
    Table.update_with R t old_key f = updateWithFound R t old_key (f v0) (R.categories v0) := by
  simp only [Table.update_with]
  rw [h]

theorem updateWithFound_norename_ok {K C V : Type} [DecidableEq K] [DecidableEq C]
    (R : RecordOps K C V) (t : Table K C V) (old_key : K) (v : V) (old_cats : List C)
    (h : R.key v = old_key) :
    (updateWithFound R t old_key v old_cats).2 = Except.ok () := by
  simp only [updateWithFound]
  rw [if_pos h]

theorem updateWithFound_rename {K C V : Type} [DecidableEq K] [DecidableEq C]
    (R : RecordOps K C V) (t : Table K C V) (old_key : K) (v : V) (old_cats : List C)
    (h : ¬ R.key v = old_key) :
    updateWithFound R t old_key v old_cats =
      match Table.insert R t v with
      | (t1, Except.ok _) => ((Table.remove R t1 old_key).1, Except.ok ())
      | (t1, Except.error e) => (t1, Except.error e) := by
  simp only [updateWithFound]
  rw [if_neg h]

/-- Claim C1: `update_with(k, f)` with unchanged key is claimed to apply the
mutation fully.  Evaluating the code on a one-record table: the call reports
success and rewrites the index to the mutated categories, yet `get(1)` still
returns the unmutated record, and invariant 2 is broken — the no-rename
branch never writes the mutated clone back into `data`. -/
theorem C1_update_with_mutation_dropped :
    (Table.update_with Rnc tOne 1 (fun v => (v.1, [20]))).2 = Except.ok () ∧
    Table.get (Table.update_with Rnc tOne 1 (fun v => (v.1, [20]))).1 1 = some (1, [10]) ∧
    mapLookup (Table.update_with Rnc tOne 1 (fun v => (v.1, [20]))).1.index 20 = some [1] ∧
    ((1 : Nat), ([10] : List Nat)) ≠ (fun v => (v.1, [20])) ((1 : Nat), ([10] : List Nat)) ∧
    inv2b Rnc (Table.update_with Rnc tOne 1 (fun v => (v.1, [20]))).1 = false :=
  ⟨rfl, rfl, rfl, by decide, rfl⟩

/-- Claim C2: `find(c)` is claimed to return exactly the stored records whose
categories contain `c` after any sequence of operations.  After the sequence
[insert (1, [10]); update_with 1 (set categories to [20])], `find 20` returns
the record (1, [10]) even though 20 is not among its categories. -/
theorem C2_find_not_exact :
    Table.find (Table.update_with Rnc tOne 1 (fun v => (v.1, [20]))).1 20 = [(1, [10])] ∧
    (20 : Nat) ∉ Rnc.categories (1, [10]) :=
  ⟨rfl, by decide⟩

/-- Claim C3 counterexample: invariant 2 holds for a table with one record of
categories [10, 20], and is broken by the public operation `remove_cat 10`,
which deletes the record but leaves key 1 in the bucket of category 20. -/
theorem C3_remove_cat_breaks_inv2 :
    inv2b Rnc tTwoCats = true ∧
    inv2b Rnc (Table.remove_cat tTwoCats 10).1 = false :=
  ⟨rfl, rfl⟩

/-- Claim C4: a collision-free batch is claimed to commit every update.
Evaluating the code: `update_by_cat 10 (set categories to [20])` on a
one-record table returns success with count 1, but `data` still holds the
unmutated record (1, [10]) — the commit via `upsert`/`update_with` drops the
mutated clone in the no-rename case. -/
theorem C4_update_by_cat_commit_dropped :
    Table.update_by_cat Rnc tOne 10 (fun v => (v.1, [20]))
      = some (Table.mk [(1, (1, [10]))] [(20, [1])], Except.ok 1) ∧
    ((1 : Nat), ([10] : List Nat)) ≠ (fun v => (v.1, [20])) ((1 : Nat), ([10] : List Nat)) :=
  ⟨rfl, by decide⟩

/-- Claim C9: reconstruction from a duplicate-key sequence is claimed to
return KeyCollision as a deserialization error.  Evaluating the code: the
`Deserialize` impl calls `insert(item).unwrap()`, so a duplicate key panics
(modelled as `none`) instead of returning the error to the caller. -/
theorem C9_reconstruct_panics_on_duplicate :
    reconstruct Rnc [(1, [10]), (1, [20])] = none ∧
    Rnc.key (1, [10]) = Rnc.key (1, [20]) :=
  ⟨rfl, rfl⟩

/- Invariant 2: boolean and propositional forms agree, and the operations
`insert` and `remove` preserve it. -/

theorem inv2b_iff {K C V : Type} [DecidableEq K] [DecidableEq C]
    (R : RecordOps K C V) (t : Table K C V) :
    inv2b R t = true ↔ inv2p R t := by
  unfold inv2b inv2p
  rw [List.all_eq_true]
  constructor
  · intro h p hp k hk
    have hh := h p hp
    rw [List.all_eq_true] at hh
    have hk2 := hh k hk
    revert hk2
    cases heq : mapLookup t.data k with
    | none => intro hk2; simp at hk2
    | some v =>
      intro hk2
      exact ⟨v, rfl, by simpa using hk2⟩
  · intro h p hp
    rw [List.all_eq_true]
    intro k hk
    obtain ⟨v, hv, hcv⟩ := h p hp k hk
    rw [hv]
    simpa using hcv

theorem inv2p_insert {K C V : Type} [DecidableEq K] [DecidableEq C]
    (R : RecordOps K C V) (t : Table K C V) (v : V) (h : inv2p R t) :
    inv2p R (Table.insert R t v).1 := by
  by_cases hc : (mapLookup t.data (R.key v)).isSome = true
  · rw [insert_of_present R t v hc]
    exact h
  · have hn : mapLookup t.data (R.key v) = none :=
      Option.not_isSome_iff_eq_none.mp (by simpa using hc)
    rw [insert_of_absent R t v hn]
    intro p hp k' hk'
    rcases foldlBucketInsert_entries (R.categories v) t.index (R.key v) p hp k' hk' with
      ⟨q, hq, hq1, hq2⟩ | ⟨hkk, hmem⟩
    · obtain ⟨w, hw, hcw⟩ := h q hq k' hq2
      exact ⟨w, mapLookup_append_of_some _ hw, hq1 ▸ hcw⟩
    · subst hkk
      refine ⟨v, ?_, hmem⟩
      rw [mapLookup_append_of_none _ hn, mapLookup_single_self]

theorem inv2p_remove {K C V : Type} [DecidableEq K] [DecidableEq C]
    (R : RecordOps K C V) (t : Table K C V) (k : K) (h : inv2p R t) :
    inv2p R (Table.remove R t k).1 := by
  cases heq : mapLookup t.data k with
  | none =>
    rw [remove_of_absent R t k heq]
    exact h
  | some r =>
    rw [remove_of_present R t k r heq]
    intro p hp k' hk'
    obtain ⟨q, hq, h1, h2, h3⟩ := foldlClearRemove_entries (R.categories r) t.index k p hp
    obtain ⟨w, hw, hcw⟩ := h q hq k' (h2 k' hk')
    have hkne : k' ≠ k := by
      intro hke
      subst hke
      rw [heq] at hw
      have hwr : w = r := (Option.some_inj.mp hw).symm
      subst hwr
      have hcr : p.1 ∈ R.categories w := h1 ▸ hcw
      exact h3 hcr hk'
    refine ⟨w, ?_, h1 ▸ hcw⟩
    rw [mapLookup_erase, if_neg hkne]
    exact hw

/-- Claim C3 (amended): invariant 2 is preserved by `insert` and by `remove`;
it is not preserved by `remove_cat` (see the counterexample) nor by the
no-rename branch of `update_with`, which updates the index without `data`. -/
theorem C3_inv2_preserved_insert_remove {K C V : Type} [DecidableEq K] [DecidableEq C]
    (R : RecordOps K C V) (t : Table K C V) (v : V) (k : K)
    (h : inv2b R t = true) :
    inv2b R (Table.insert R t v).1 = true ∧ inv2b R (Table.remove R t k).1 = true :=
  ⟨(inv2b_iff R _).mpr (inv2p_insert R t v ((inv2b_iff R t).mp h)),
   (inv2b_iff R _).mpr (inv2p_remove R t k ((inv2b_iff R t).mp h))⟩

/-- Witness for C3: the amended preservation at a concrete table. -/
theorem C3_inv2_preserved_witness :
    inv2b Rnc (Table.insert Rnc tOne (2, [20])).1 = true ∧
    inv2b Rnc (Table.remove Rnc tOne 1).1 = true :=
  C3_inv2_preserved_insert_remove Rnc tOne (2, [20]) 1 rfl

/-- Claim C6: `update_with(k, f)` where `f` moves the record to a key already
occupied by a different record fails with KeyCollision and leaves the table
exactly as before; `get(k)` still returns the pre-update record. -/
theorem C6_update_with_rename_collision {K C V : Type} [DecidableEq K] [DecidableEq C]
    (R : RecordOps K C V) (t : Table K C V) (k k2 : K) (f : V → V) (r : V)
    (h1 : mapLookup t.data k = some r) (h2 : R.key (f r) = k2) (h3 : k2 ≠ k)
    (h4 : (mapLookup t.data k2).isSome = true) :
    Table.update_with R t k f = (t, Except.error QueryError.KeyCollision) ∧
    Table.get (Table.update_with R t k f).1 k = some r := by
  have hne : ¬ R.key (f r) = k := by rw [h2]; exact h3
  have hins : Table.insert R t (f r) = (t, Except.error QueryError.KeyCollision) :=
    insert_of_present R t (f r) (by rw [h2]; exact h4)
  have hmain : Table.update_with R t k f = (t, Except.error QueryError.KeyCollision) := by
    rw [update_with_of_present R t k f r h1, updateWithFound_rename R t k (f r) _ hne, hins]
  refine ⟨hmain, ?_⟩
  rw [hmain]
  exact h1

/-- Witness for C6: renaming key 1 onto the occupied key 2 in a two-record
table fails with KeyCollision and leaves the table unchanged. -/
theorem C6_update_with_rename_collision_witness :
    Table.update_with Rnc tTwo 1 (fun v => (2, v.2)) =
      (tTwo, Except.error QueryError.KeyCollision) :=
  (C6_update_with_rename_collision Rnc tTwo 1 2 (fun v => (2, v.2)) (1, [10])
    rfl rfl (by decide) rfl).1

/-- Claim C7: `insert` fails with KeyCollision and changes nothing when the
key is present; otherwise it succeeds, a subsequent `get` of the key returns
the inserted record, and the key is in the bucket of every category of the
record (buckets created as needed). -/
theorem C7_insert_spec {K C V : Type} [DecidableEq K] [DecidableEq C]
    (R : RecordOps K C V) (t : Table K C V) (v : V) :
    ((mapLookup t.data (R.key v)).isSome = true →
      Table.insert R t v = (t, Except.error QueryError.KeyCollision)) ∧
    (mapLookup t.data (R.key v) = none →
      (Table.insert R t v).2 = Except.ok () ∧
      Table.get (Table.insert R t v).1 (R.key v) = some v ∧
      ∀ c ∈ R.categories v, ∃ ks,
        mapLookup (Table.insert R t v).1.index c = some ks ∧ R.key v ∈ ks) := by
  constructor
  · exact insert_of_present R t v
  · intro h
    rw [insert_of_absent R t v h]
    refine ⟨rfl, ?_, ?_⟩
    · show mapLookup (t.data ++ [(R.key v, v)]) (R.key v) = some v
      rw [mapLookup_append_of_none _ h, mapLookup_single_self]
    · intro c hc
      exact foldlBucketInsert_mem (R.categories v) t.index (R.key v) c (Or.inr hc)

/-- Witness for C7: inserting into the empty table succeeds and `get` returns
the record. -/
theorem C7_insert_spec_witness :
    (Table.insert Rnc Table.new ((1 : Nat), ([10] : List Nat))).2 = Except.ok () ∧
    Table.get (Table.insert Rnc Table.new ((1 : Nat), ([10] : List Nat))).1 1 = some (1, [10]) :=
  ⟨((C7_insert_spec Rnc Table.new (1, [10])).2 rfl).1,
   ((C7_insert_spec Rnc Table.new (1, [10])).2 rfl).2.1⟩

/-- Claim C8: `remove` on an absent key returns nothing and changes nothing;
on a present key it returns the record, deletes it from `data`, removes the
key from the bucket of every pre-removal category, and leaves no empty
bucket (given that none existed before, spec invariant 4). -/
theorem C8_remove_spec {K C V : Type} [DecidableEq K] [DecidableEq C]
    (R : RecordOps K C V) (t : Table K C V) (k : K) (h4 : inv4b t = true) :
    (mapLookup t.data k = none → Table.remove R t k = (t, none)) ∧
    (∀ r, mapLookup t.data k = some r →
      (Table.remove R t k).2 = some r ∧
      mapLookup (Table.remove R t k).1.data k = none ∧
      (∀ c ∈ R.categories r, ∀ ks,
        mapLookup (Table.remove R t k).1.index c = some ks → k ∉ ks) ∧
      inv4b (Table.remove R t k).1 = true) := by
  constructor
  · exact remove_of_absent R t k
  · intro r hr
    rw [remove_of_present R t k r hr]
    refine ⟨rfl, mapLookup_erase_self t.data k, ?_, ?_⟩
    · intro c hc ks hks
      obtain ⟨q, hq, h1, h2, h3⟩ :=
        foldlClearRemove_entries (R.categories r) t.index k (c, ks) (mapLookup_some_mem hks)
      exact h3 hc
    · exact inv4idx_foldlClearRemove (R.categories r) t.index k h4

/-- Witness for C8: removing the only record of a one-record table. -/
theorem C8_remove_spec_witness :
    (Table.remove Rnc tOne 1).2 = some (1, [10]) ∧
    inv4b (Table.remove Rnc tOne 1).1 = true :=
  ⟨((C8_remove_spec Rnc tOne 1 rfl).2 (1, [10]) rfl).1,
   ((C8_remove_spec Rnc tOne 1 rfl).2 (1, [10]) rfl).2.2.2⟩

/- Guard reductions for `upsert`. -/

theorem upsert_guard_true {K C V : Type} [DecidableEq K] [DecidableEq C]
    (R : RecordOps K C V) (t : Table K C V) (key : K) (v : V)
    (hb : (decide (R.key v ≠ key) && (mapLookup t.data (R.key v)).isSome) = true) :
    Table.upsert R t key v = some (t, Except.error QueryError.KeyCollision) := by
  simp only [Table.upsert]
  rw [if_pos hb]

theorem upsert_guard_false_present {K C V : Type} [DecidableEq K] [DecidableEq C]
    (R : RecordOps K C V) (t : Table K C V) (key : K) (v : V)
    (hb : ¬ ((decide (R.key v ≠ key) && (mapLookup t.data (R.key v)).isSome) = true))
    (hk : (mapLookup t.data key).isSome = true) :
    Table.upsert R t key v =
      match Table.update_with R t key (fun _ => v) with
      | (t1, Except.ok _) => some (t1, Except.ok ())
      | (_, Except.error _) => none := by
  simp only [Table.upsert]
  rw [if_neg hb, if_pos hk]

theorem upsert_guard_false_absent {K C V : Type} [DecidableEq K] [DecidableEq C]
    (R : RecordOps K C V) (t : Table K C V) (key : K) (v : V)
    (hb : ¬ ((decide (R.key v ≠ key) && (mapLookup t.data (R.key v)).isSome) = true))
    (hk : ¬ ((mapLookup t.data key).isSome = true)) :
    Table.upsert R t key v =
      match Table.insert R t v with
      | (t1, Except.ok _) => some (t1, Except.ok ())
      | (_, Except.error _) => none := by
  simp only [Table.upsert]
  rw [if_neg hb, if_neg hk]

theorem update_with_replace_ok {K C V : Type} [DecidableEq K] [DecidableEq C]
    (R : RecordOps K C V) (t : Table K C V) (key : K) (v : V) (r : V)
    (hk : mapLookup t.data key = some r)
    (hcase : R.key v = key ∨ mapLookup t.data (R.key v) = none) :
    (Table.update_with R t key (fun _ => v)).2 = Except.ok () := by
  rw [update_with_of_present R t key (fun _ => v) r hk]
  rcases hcase with he | hn
  · exact updateWithFound_norename_ok R t key v _ he
  · by_cases he : R.key v = key
    · exact updateWithFound_norename_ok R t key v _ he
    · rw [updateWithFound_rename R t key v _ he, insert_of_absent R t v hn]

/-- Claim C5: `upsert(key, v)` fails with KeyCollision and no mutation when
the new key differs from `key` and is occupied; when `key` is present it
behaves exactly as `update_with(key, replace with v)`; when `key` is absent
it behaves exactly as `insert(v)`, ignoring the `key` parameter. -/
theorem C5_upsert_spec {K C V : Type} [DecidableEq K] [DecidableEq C]
    (R : RecordOps K C V) (t : Table K C V) (key : K) (v : V) :
    (R.key v ≠ key → (mapLookup t.data (R.key v)).isSome = true →
      Table.upsert R t key v = some (t, Except.error QueryError.KeyCollision)) ∧
    ((mapLookup t.data key).isSome = true →
      Table.upsert R t key v = some (Table.update_with R t key (fun _ => v))) ∧
    ((mapLookup t.data key).isSome = false →
      Table.upsert R t key v = some (Table.insert R t v)) := by
  refine ⟨?_, ?_, ?_⟩
  · intro hne hs
    exact upsert_guard_true R t key v (by simp [hne, hs])
  · intro hk
    obtain ⟨r, hr⟩ := Option.isSome_iff_exists.mp hk
    by_cases hb : (decide (R.key v ≠ key) && (mapLookup t.data (R.key v)).isSome) = true
    · rw [upsert_guard_true R t key v hb]
      have hb2 := hb
      simp only [Bool.and_eq_true, decide_eq_true_eq] at hb2
      have hne : ¬ R.key v = key := hb2.1
      have hsv : (mapLookup t.data (R.key v)).isSome = true := hb2.2
      rw [update_with_of_present R t key (fun _ => v) r hr,
        updateWithFound_rename R t key v _ hne,
        insert_of_present R t v hsv]
    · rw [upsert_guard_false_present R t key v hb hk]
      have hcase : R.key v = key ∨ mapLookup t.data (R.key v) = none := by
        by_cases he : R.key v = key
        · exact Or.inl he
        · exact Or.inr (Option.not_isSome_iff_eq_none.mp (fun hs => hb (by simp [he, hs])))
      have hok : (Table.update_with R t key (fun _ => v)).2 = Except.ok () :=
        update_with_replace_ok R t key v r hr hcase
      have hself : Table.update_with R t key (fun _ => v) =
          ((Table.update_with R t key (fun _ => v)).1, Except.ok ()) := by
        rw [← hok]
      rw [hself]
  · intro hk
    by_cases hb : (decide (R.key v ≠ key) && (mapLookup t.data (R.key v)).isSome) = true
    · rw [upsert_guard_true R t key v hb]
      have hb2 := hb
      simp only [Bool.and_eq_true, decide_eq_true_eq] at hb2
      rw [insert_of_present R t v hb2.2]
    · rw [upsert_guard_false_absent R t key v hb (by simp [hk])]
      have hn : mapLookup t.data (R.key v) = none := by
        by_cases he : R.key v = key
        · rw [he]
          exact Option.not_isSome_iff_eq_none.mp (by simp [hk])
        · exact Option.not_isSome_iff_eq_none.mp (fun hs => hb (by simp [he, hs]))
      rw [insert_of_absent R t v hn]

/-- Witness for C5: on the empty table, `upsert` behaves as a plain insert. -/
theorem C5_upsert_spec_witness :
    Table.upsert Rnc Table.new 1 ((1 : Nat), ([10] : List Nat)) =
      some (Table.insert Rnc Table.new (1, [10])) :=
  (C5_upsert_spec Rnc Table.new 1 (1, [10])).2.2 rfl

/-- Claim C10: `update_by_cat` on a category with no bucket succeeds with
count 0 and leaves the table unchanged; the result does not depend on the
callback, which is never invoked. -/
theorem C10_update_by_cat_no_bucket {K C V : Type} [DecidableEq K] [DecidableEq C]
    (R : RecordOps K C V) (t : Table K C V) (c : C) (f : V → V)
    (h : mapLookup t.index c = none) :
    Table.update_by_cat R t c f = some (t, Except.ok 0) := by
  simp only [Table.update_by_cat]
  rw [h]

/-- Witness for C10: an unknown category on the empty table. -/
theorem C10_update_by_cat_no_bucket_witness :
    Table.update_by_cat Rnc Table.new 5 id = some (Table.new, Except.ok 0) :=
  C10_update_by_cat_no_bucket Rnc Table.new 5 id rfl

end Microtable
